import Mathlib

set_option maxHeartbeats 1600000

namespace RNL

/-- ASCII whitespace test, modelling the whitespace class used by the JavaScript
string trim method and the regex class in the source, restricted to ASCII. -/
def isWS (c : Char) : Bool :=
  c == ' ' || c == '\t' || c == '\n' || c == '\r' || c == Char.ofNat 11 || c == Char.ofNat 12

/-- Decimal digit character for a value below ten; values of nine or more map to '9'. -/
def digitChar : Nat → Char
  | 0 => '0'
  | 1 => '1'
  | 2 => '2'
  | 3 => '3'
  | 4 => '4'
  | 5 => '5'
  | 6 => '6'
  | 7 => '7'
  | 8 => '8'
  | _ => '9'

/-- Fuel-driven accumulator loop producing the decimal numeral of a natural number. -/
def natCharsCore : Nat → Nat → List Char → List Char
  | 0, _, acc => acc
  | fuel + 1, n, acc =>
    if n < 10 then digitChar n :: acc
    else natCharsCore fuel (n / 10) (digitChar (n % 10) :: acc)

/-- Decimal numeral of a natural number, modelling JavaScript template
interpolation of the list counter in `reformatTextToNumberedList`. -/
def natChars (n : Nat) : List Char := natCharsCore (n + 1) n []

/-- Splits character text on line-break characters, keeping empty segments;
models the JavaScript split on a line break (the empty text yields one empty line). -/
def splitLines : List Char → List (List Char)
  | [] => [[]]
  | c :: cs =>
    if c = '\n' then [] :: splitLines cs
    else
      match splitLines cs with
      | [] => [[c]]
      | l :: ls => (c :: l) :: ls

/-- Joins lines with a line-break separator; models the JavaScript array join. -/
def joinLines : List (List Char) → List Char
  | [] => []
  | [l] => l
  | l :: l' :: ls => l ++ '\n' :: joinLines (l' :: ls)

/-- Drops leading whitespace. -/
def trimLeft (l : List Char) : List Char := l.dropWhile isWS

/-- Drops trailing whitespace. -/
def trimRight (l : List Char) : List Char := (l.reverse.dropWhile isWS).reverse

/-- Models the JavaScript string trim method: whitespace removed at both ends. -/
def trim (l : List Char) : List Char := trimLeft (trimRight l)

/-- Blank-line test of the source: `line.trim().length === 0`. -/
def isBlankLine (l : List Char) : Bool := (trim l).isEmpty

/-- Models the replacement of the anchored marker regex by the empty string in
`reformatTextToNumberedList` (source line 31): a leading run of digits followed
by a dot, or a single star or dash, together with any following whitespace, is
removed; otherwise the text is returned unchanged. -/
def stripMarker (l : List Char) : List Char :=
  if l.head? = some '*' ∨ l.head? = some '-' then l.tail.dropWhile isWS
  else if (l.takeWhile Char.isDigit).isEmpty then l
  else
    match l.drop (l.takeWhile Char.isDigit).length with
    | '.' :: rest => rest.dropWhile isWS
    | _ => l

/-- One output line of the reformatter for a non-blank input line, given the
current counter value: the counter numeral, a dot, a space, and the stripped
trimmed content (source line 32). -/
def formatLine (k : Nat) (l : List Char) : List Char :=
  natChars k ++ '.' :: ' ' :: stripMarker (trim l)

/-- The per-line map of `reformatTextToNumberedList` with its mutable counter
made explicit: blank lines become empty lines and do not advance the counter;
other lines are stripped and renumbered (source lines 25 to 33). -/
def numberFrom : Nat → List (List Char) → List (List Char)
  | _, [] => []
  | k, l :: ls =>
    if isBlankLine l then [] :: numberFrom k ls
    else formatLine k l :: numberFrom (k + 1) ls

/-- The reformatter of the source (lines 22 to 35) on character lists: empty
text maps to empty text; otherwise the text is split into lines, each line is
stripped and renumbered with blank lines preserved as empty lines, and the
lines are joined back with line breaks. -/
def reformatChars (text : List Char) : List Char :=
  if text.isEmpty then [] else joinLines (numberFrom 1 (splitLines text))

/-- The reformatter on Lean strings. -/
def reformatTextToNumberedList (s : String) : String := ⟨reformatChars s.data⟩

/-- Length of the anchored numeral-marker match of the key handler (source
line 115): a leading run of digits, a dot, and any following whitespace; zero
when there is no such match. -/
def numPrefixLen (l : List Char) : Nat :=
  if (l.takeWhile Char.isDigit).isEmpty then 0
  else
    match l.drop (l.takeWhile Char.isDigit).length with
    | '.' :: rest => (l.takeWhile Char.isDigit).length + 1 + (rest.takeWhile isWS).length
    | _ => 0

/-- The Enter branch of `handleKeyDown` (source lines 82 to 132): given the
current value and the cursor offset, it inserts a line break at the cursor,
reformats the whole text, and returns the committed value together with the
pending cursor offset computed over the reformatted lines. -/
def handleKeyDownEnter (v : List Char) (p : Nat) : List Char × Nat :=
  let currentLineIndex := (splitLines (v.take p)).length - 1
  let finalValue := reformatChars (v.take p ++ '\n' :: v.drop p)
  let finalLines := splitLines finalValue
  let targetLineIndex := currentLineIndex + 1
  if targetLineIndex < finalLines.length then
    let base := ((finalLines.take targetLineIndex).map (fun l => l.length + 1)).sum
    (finalValue, base + numPrefixLen (finalLines.getD targetLineIndex []))
  else
    (finalValue, finalValue.length)

/-- Spec-side numeral-marker length, following the specification's words: the
ordinal marker is a nonempty digit run followed by a dot and a space, and its
length is added when such a marker is present. -/
def specPrefixLen (l : List Char) : Nat :=
  if (l.takeWhile Char.isDigit).isEmpty then 0
  else
    match l.drop (l.takeWhile Char.isDigit).length with
    | '.' :: ' ' :: _ => (l.takeWhile Char.isDigit).length + 2
    | _ => 0

/-- Spec-side cursor computation, following section 4.2 step 4 of the
specification: the sum of the lengths of all lines strictly before the target
line plus one character per line-break boundary, plus the length of the target
line's numeral marker when present; when the target line index does not exist,
the end of the buffer. -/
def specCursorOffset (finalValue : List Char) (targetLineIndex : Nat) : Nat :=
  let lines := splitLines finalValue
  if targetLineIndex < lines.length then
    ((lines.take targetLineIndex).map (fun l => l.length + 1)).sum
      + specPrefixLen (lines.getD targetLineIndex [])
  else finalValue.length

/-- Spec-side count of non-blank lines strictly before position i, used to
state the fresh sequential ordinal of the specification. -/
def nonBlankBefore (L : List (List Char)) (i : Nat) : Nat :=
  (L.take i).countP (fun l => !(trim l).isEmpty)

/-- Events delivered to the blur state machine: a blur of the field, or the
settling of one outstanding correction call with a result or a failure. -/
inductive BlurEvent
  | blur
  | resolveOk (t : List Char)
  | resolveErr

/-- State of the field around `handleBlur`: the committed value, the list of
outstanding correction calls each with the value captured at blur time and the
locally reformatted text, and the `isCorrecting` flag (source line 52). -/
structure EditorState where
  value : List Char
  pending : List (List Char × List Char)
  isCorrecting : Bool

/-- The synchronous part of `handleBlur` up to its suspension point (source
lines 134 to 139 and 155 to 160): the current value is reformatted; when the
correction capability is present, the field is editable and the reformatted
text is non-blank, the flag is raised and a correction call is started with the
captured value; otherwise the reformatted text is committed when it differs. -/
def blurStep (hasAutoCorrect readOnly : Bool) (s : EditorState) : EditorState :=
  let currentValue := s.value
  let formattedValue := reformatChars currentValue
  if hasAutoCorrect && !readOnly && !(trim formattedValue).isEmpty then
    { s with isCorrecting := true, pending := s.pending ++ [(currentValue, formattedValue)] }
  else
    if currentValue ≠ formattedValue then { s with value := formattedValue } else s

/-- The resumption of `handleBlur` after the correction call settles (source
lines 141 to 154): on success the returned text is committed when it differs
from the value captured at blur time; on failure the locally reformatted text
is committed when it differs from the captured value; the flag is lowered in
both cases, modelling the finally block. -/
def resolveStep (s : EditorState) (res : Option (List Char)) : EditorState :=
  match s.pending with
  | [] => s
  | (captured, formatted) :: rest =>
    match res with
    | some corrected =>
      { value := if captured ≠ corrected then corrected else s.value
        pending := rest
        isCorrecting := false }
    | none =>
      { value := if captured ≠ formatted then formatted else s.value
        pending := rest
        isCorrecting := false }

/-- One step of the blur state machine. -/
def step (cap ro : Bool) : BlurEvent → EditorState → EditorState
  | .blur, s => blurStep cap ro s
  | .resolveOk t, s => resolveStep s (some t)
  | .resolveErr, s => resolveStep s none

/-- Runs a sequence of events through the blur state machine. -/
def runEvents (cap ro : Bool) (es : List BlurEvent) (s : EditorState) : EditorState :=
  es.foldl (fun s e => step cap ro e s) s

/-- Initial state of a field holding a given value, with no correction
outstanding. -/
def initState (v : List Char) : EditorState := ⟨v, [], false⟩

/-- Every value of `digitChar` is a decimal digit character. -/
lemma digitChar_isDigit : ∀ n, (digitChar n).isDigit = true
  | 0 => rfl
  | 1 => rfl
  | 2 => rfl
  | 3 => rfl
  | 4 => rfl
  | 5 => rfl
  | 6 => rfl
  | 7 => rfl
  | 8 => rfl
  | _ + 9 => rfl

/-- Digit characters are not whitespace. -/
lemma isWS_eq_false_of_isDigit {c : Char} (h : c.isDigit = true) : isWS c = false := by
  simp only [isWS, Bool.or_eq_false_iff, beq_eq_false_iff_ne, ne_eq]
  refine ⟨⟨⟨⟨⟨?_, ?_⟩, ?_⟩, ?_⟩, ?_⟩, ?_⟩ <;>
    (rintro rfl; exact absurd h (by decide))

/-- Digit characters are not the star bullet. -/
lemma ne_star_of_isDigit {c : Char} (h : c.isDigit = true) : c ≠ '*' := by
  rintro rfl; exact absurd h (by decide)

/-- Digit characters are not the dash bullet. -/
lemma ne_dash_of_isDigit {c : Char} (h : c.isDigit = true) : c ≠ '-' := by
  rintro rfl; exact absurd h (by decide)

/-- Digit characters are not a line break. -/
lemma ne_newline_of_isDigit {c : Char} (h : c.isDigit = true) : c ≠ '\n' := by
  rintro rfl; exact absurd h (by decide)

/-- Every character produced by the numeral loop is a digit or comes from the
accumulator. -/
lemma natCharsCore_mem :
    ∀ fuel n acc c, c ∈ natCharsCore fuel n acc → c.isDigit = true ∨ c ∈ acc := by
  intro fuel
  induction fuel with
  | zero => intro n acc c hc; exact Or.inr hc
  | succ fuel ih =>
    intro n acc c hc
    simp only [natCharsCore] at hc
    by_cases h : n < 10
    · rw [if_pos h] at hc
      rcases List.mem_cons.mp hc with h' | h'
      · exact Or.inl (h' ▸ digitChar_isDigit n)
      · exact Or.inr h'
    · rw [if_neg h] at hc
      rcases ih (n / 10) (digitChar (n % 10) :: acc) c hc with h' | h'
      · exact Or.inl h'
      · rcases List.mem_cons.mp h' with h'' | h''
        · exact Or.inl (h'' ▸ digitChar_isDigit (n % 10))
        · exact Or.inr h''

/-- With positive fuel the numeral loop returns a list headed by a digit. -/
lemma natCharsCore_cons :
    ∀ fuel n acc, fuel ≠ 0 →
      ∃ d t, natCharsCore fuel n acc = d :: t ∧ d.isDigit = true := by
  intro fuel
  induction fuel with
  | zero => intro n acc h; exact absurd rfl h
  | succ fuel ih =>
    intro n acc _
    simp only [natCharsCore]
    by_cases h : n < 10
    · exact ⟨digitChar n, acc, by rw [if_pos h], digitChar_isDigit n⟩
    · rw [if_neg h]
      by_cases hf : fuel = 0
      · subst hf
        exact ⟨digitChar (n % 10), acc, rfl, digitChar_isDigit (n % 10)⟩
      · exact ih (n / 10) (digitChar (n % 10) :: acc) hf

/-- Every character of a numeral is a digit. -/
lemma natChars_isDigit {n : Nat} {c : Char} (hc : c ∈ natChars n) : c.isDigit = true := by
  rcases natCharsCore_mem (n + 1) n [] c hc with h | h
  · exact h
  · exact absurd h (List.not_mem_nil c)

/-- A numeral is a nonempty list headed by a digit. -/
lemma natChars_cons (n : Nat) : ∃ d t, natChars n = d :: t ∧ d.isDigit = true :=
  natCharsCore_cons (n + 1) n [] (Nat.succ_ne_zero n)

/-- A numeral is nonempty. -/
lemma natChars_ne_nil (n : Nat) : natChars n ≠ [] := by
  rcases natChars_cons n with ⟨d, t, h, _⟩
  rw [h]; exact List.cons_ne_nil d t

/-- Splitting never returns an empty list of lines. -/
lemma splitLines_ne_nil : ∀ t : List Char, splitLines t ≠ [] := by
  intro t
  induction t with
  | nil => simp [splitLines]
  | cons c cs ih =>
    simp only [splitLines]
    by_cases h : c = '\n'
    · rw [if_pos h]; exact List.cons_ne_nil _ _
    · rw [if_neg h]
      cases hs : splitLines cs with
      | nil => exact absurd hs ih
      | cons l ls => exact List.cons_ne_nil _ _

/-- No line produced by splitting contains a line break. -/
lemma no_newline_of_mem_splitLines :
    ∀ t l, l ∈ splitLines t → '\n' ∉ l := by
  intro t
  induction t with
  | nil =>
    intro l hl
    simp only [splitLines, List.mem_singleton] at hl
    subst hl; exact List.not_mem_nil _
  | cons c cs ih =>
    intro l hl
    simp only [splitLines] at hl
    by_cases h : c = '\n'
    · rw [if_pos h] at hl
      rcases List.mem_cons.mp hl with h' | h'
      · subst h'; exact List.not_mem_nil _
      · exact ih l h'
    · rw [if_neg h] at hl
      cases hs : splitLines cs with
      | nil => exact absurd hs (splitLines_ne_nil cs)
      | cons l₀ ls =>
        rw [hs] at hl
        rcases List.mem_cons.mp hl with h' | h'
        · subst h'
          intro hmem
          rcases List.mem_cons.mp hmem with h'' | h''
          · exact h h''.symm
          · exact ih l₀ (hs ▸ List.mem_cons_self l₀ ls) h''
        · exact ih l (hs ▸ List.mem_cons_of_mem l₀ h')

/-- Splitting a line-break-free text yields that text as a single line. -/
lemma splitLines_of_no_newline : ∀ l : List Char, '\n' ∉ l → splitLines l = [l] := by
  intro l
  induction l with
  | nil => intro _; rfl
  | cons c cs ih =>
    intro h
    have hc : c ≠ '\n' := fun hc => h (hc ▸ List.mem_cons_self c cs)
    have hcs : '\n' ∉ cs := fun h' => h (List.mem_cons_of_mem c h')
    simp only [splitLines, if_neg hc, ih hcs]

/-- Splitting text beginning with a line-break-free segment followed by a line
break peels off that segment as the first line. -/
lemma splitLines_append_newline :
    ∀ (l t : List Char), '\n' ∉ l → splitLines (l ++ '\n' :: t) = l :: splitLines t := by
  intro l
  induction l with
  | nil => intro t _; simp [splitLines]
  | cons c cs ih =>
    intro t h
    have hc : c ≠ '\n' := fun hc => h (hc ▸ List.mem_cons_self c cs)
    have hcs : '\n' ∉ cs := fun h' => h (List.mem_cons_of_mem c h')
    simp only [List.cons_append, splitLines, if_neg hc]
    rw [List.append_eq, ih t hcs]

/-- Splitting undoes joining for a nonempty list of line-break-free lines. -/
lemma splitLines_joinLines :
    ∀ L : List (List Char), L ≠ [] → (∀ l ∈ L, '\n' ∉ l) →
      splitLines (joinLines L) = L := by
  intro L
  induction L with
  | nil => intro h _; exact absurd rfl h
  | cons l ls ih =>
    intro _ hnl
    cases ls with
    | nil =>
      simp only [joinLines]
      exact splitLines_of_no_newline l (hnl l (List.mem_cons_self l []))
    | cons l' ls' =>
      simp only [joinLines]
      rw [splitLines_append_newline _ _ (hnl l (List.mem_cons_self l _))]
      rw [ih (List.cons_ne_nil l' ls') (fun x hx => hnl x (List.mem_cons_of_mem l hx))]

/-- Joining a list of at least two lines yields nonempty text. -/
lemma joinLines_cons_cons_ne_nil (l l' : List Char) (ls : List (List Char)) :
    joinLines (l :: l' :: ls) ≠ [] := by
  simp only [joinLines]
  intro h
  rcases List.append_eq_nil.mp h with ⟨_, h₂⟩
  exact List.cons_ne_nil _ _ h₂

/-- The head of a trimmed line is not whitespace. -/
lemma head?_trim {l : List Char} {c : Char} (h : (trim l).head? = some c) :
    isWS c = false := by
  have h' := List.head?_dropWhile_not isWS (trimRight l)
  rw [show (trimRight l).dropWhile isWS = trim l from rfl, h] at h'
  exact h'

/-- A nonempty suffix has the same last element as the whole list. -/
lemma getLast?_of_suffix {s t : List Char} (h : s <:+ t) (hne : s ≠ []) :
    t.getLast? = s.getLast? := by
  obtain ⟨pre, rfl⟩ := h
  rw [List.getLast?_append]
  cases hs : s.getLast? with
  | none => exact absurd (List.getLast?_eq_none_iff.mp hs) hne
  | some x => rfl

/-- The last element of a trimmed line is not whitespace. -/
lemma getLast?_trim {l : List Char} {c : Char} (h : (trim l).getLast? = some c) :
    isWS c = false := by
  have hne : trim l ≠ [] := by
    intro h0; rw [h0] at h; exact Option.noConfusion h
  have hsuffix : trim l <:+ trimRight l := List.dropWhile_suffix isWS
  have h₁ : (trimRight l).getLast? = some c := by
    rw [getLast?_of_suffix hsuffix hne]; exact h
  have h₂ : (l.reverse.dropWhile isWS).head? = some c := by
    have hrev : (trimRight l).reverse = l.reverse.dropWhile isWS := by
      simp [trimRight]
    rw [← hrev, List.head?_reverse]
    exact h₁
  have h' := List.head?_dropWhile_not isWS l.reverse
  rw [h₂] at h'
  exact h'

/-- Trimming a line whose two ends are not whitespace changes nothing. -/
lemma trim_eq_self {l : List Char}
    (h1 : ∀ x, l.head? = some x → isWS x = false)
    (h2 : ∀ x, l.getLast? = some x → isWS x = false) : trim l = l := by
  have hR : trimRight l = l := by
    unfold trimRight
    cases hr : l.reverse with
    | nil =>
      have : l = [] := List.reverse_eq_nil_iff.mp hr
      simp [this]
    | cons a t =>
      have ha : l.getLast? = some a := by
        rw [← List.head?_reverse, hr]; rfl
      rw [List.dropWhile_cons, h2 a ha]
      simp only [Bool.false_eq_true, if_false]
      rw [← hr, List.reverse_reverse]
  unfold trim trimLeft
  rw [hR]
  cases l with
  | nil => rfl
  | cons c t =>
    rw [List.dropWhile_cons, h1 c rfl]
    simp

/-- When a line trims to nothing every character of it is whitespace. -/
lemma all_ws_of_trim_eq_nil {l : List Char} (h : trim l = []) :
    ∀ c ∈ l, isWS c = true := by
  intro c hc
  have hR : ∀ x ∈ trimRight l, isWS x = true := by
    intro x hx
    have h' : (trimRight l).dropWhile isWS = [] := h
    exact List.dropWhile_eq_nil_iff.mp h' x hx
  have hsplit := List.takeWhile_append_dropWhile (p := isWS) (l := l.reverse)
  have hcrev : c ∈ l.reverse := List.mem_reverse.mpr hc
  rw [← hsplit] at hcrev
  rcases List.mem_append.mp hcrev with h' | h'
  · exact List.mem_takeWhile_imp h'
  · exact hR c (List.mem_reverse.mpr h')

/-- Every character of a trimmed line comes from the line. -/
lemma mem_of_mem_trim {l : List Char} {c : Char} (h : c ∈ trim l) : c ∈ l := by
  have h₁ : c ∈ trimRight l := ((List.dropWhile_sublist isWS).mem h : c ∈ trimRight l)
  have h₂ : c ∈ l.reverse.dropWhile isWS := List.mem_reverse.mp h₁
  exact List.mem_reverse.mp ((List.dropWhile_sublist isWS).mem h₂)

/-- Taking while a predicate holds over a list of satisfying elements followed
by a failing element yields exactly that list. -/
lemma takeWhile_all_stop {p : Char → Bool} :
    ∀ (ds : List Char) (x : Char) (r : List Char),
      (∀ a ∈ ds, p a = true) → p x = false →
      ((ds ++ x :: r).takeWhile p) = ds := by
  intro ds
  induction ds with
  | nil =>
    intro x r _ hx
    simp [List.takeWhile_cons, hx]
  | cons a t ih =>
    intro x r hall hx
    have ha : p a = true := hall a (List.mem_cons_self a t)
    simp only [List.cons_append, List.takeWhile_cons, ha, if_true]
    rw [ih x r (fun b hb => hall b (List.mem_cons_of_mem a hb)) hx]

/-- Marker stripping returns a suffix of its argument. -/
lemma stripMarker_suffix : ∀ m : List Char, stripMarker m <:+ m := by
  intro m
  unfold stripMarker
  by_cases h1 : m.head? = some '*' ∨ m.head? = some '-'
  · rw [if_pos h1]
    exact (List.dropWhile_suffix isWS).trans (List.tail_suffix m)
  · rw [if_neg h1]
    by_cases h2 : (m.takeWhile Char.isDigit).isEmpty
    · rw [if_pos h2]
    · rw [if_neg h2]
      split
      · next rest heq =>
        have hs₁ : rest <:+ '.' :: rest := ⟨['.'], rfl⟩
        have hs₂ : '.' :: rest <:+ m := heq ▸ List.drop_suffix _ m
        exact (List.dropWhile_suffix isWS).trans (hs₁.trans hs₂)
      · exact List.suffix_refl m

/-- Every character of a stripped line comes from the line. -/
lemma mem_of_mem_stripMarker {m : List Char} {c : Char} (h : c ∈ stripMarker m) : c ∈ m :=
  (stripMarker_suffix m).mem h

/-- The head of the stripped trimmed content is not whitespace. -/
lemma head?_stripMarker_trim {l : List Char} {x : Char}
    (h : (stripMarker (trim l)).head? = some x) : isWS x = false := by
  revert h
  unfold stripMarker
  by_cases h1 : (trim l).head? = some '*' ∨ (trim l).head? = some '-'
  · rw [if_pos h1]
    intro h
    have h' := List.head?_dropWhile_not isWS (trim l).tail
    rw [h] at h'; exact h'
  · rw [if_neg h1]
    by_cases h2 : ((trim l).takeWhile Char.isDigit).isEmpty
    · rw [if_pos h2]; exact head?_trim
    · rw [if_neg h2]
      split
      · next rest _ =>
        intro h
        have h' := List.head?_dropWhile_not isWS rest
        rw [h] at h'; exact h'
      · exact head?_trim

/-- The last character of the stripped trimmed content is not whitespace. -/
lemma getLast?_stripMarker_trim {l : List Char} {x : Char}
    (h : (stripMarker (trim l)).getLast? = some x) : isWS x = false := by
  have hne : stripMarker (trim l) ≠ [] := by
    intro h0; rw [h0] at h; exact Option.noConfusion h
  have := getLast?_of_suffix (stripMarker_suffix (trim l)) hne
  exact getLast?_trim (this ▸ h)

/-- Stripping a nonempty run of digits followed by a dot removes the run, the
dot and the following whitespace. -/
lemma stripMarker_numeral {ds rest : List Char}
    (hne : ds ≠ []) (hdig : ∀ d ∈ ds, d.isDigit = true) :
    stripMarker (ds ++ '.' :: rest) = rest.dropWhile isWS := by
  have htake : ((ds ++ '.' :: rest).takeWhile Char.isDigit) = ds :=
    takeWhile_all_stop ds '.' rest hdig (by decide)
  have hhead : ∀ y, (ds ++ '.' :: rest).head? = some y → y.isDigit = true := by
    intro y hy
    cases ds with
    | nil => exact absurd rfl hne
    | cons d t =>
      simp only [List.cons_append, List.head?_cons, Option.some.injEq] at hy
      exact hy ▸ hdig d (List.mem_cons_self d t)
  unfold stripMarker
  have h1 : ¬((ds ++ '.' :: rest).head? = some '*' ∨ (ds ++ '.' :: rest).head? = some '-') := by
    rintro (h | h)
    · exact ne_star_of_isDigit (hhead '*' h) rfl
    · exact ne_dash_of_isDigit (hhead '-' h) rfl
  rw [if_neg h1, htake]
  have h2 : ¬ds.isEmpty = true := by
    cases ds with
    | nil => exact absurd rfl hne
    | cons d t => simp
  rw [if_neg h2, List.drop_left]
  rfl

/-- The anchored numeral-marker length on a numeral, dot, space and content
whose head is not whitespace. -/
lemma numPrefixLen_numeral {ds c : List Char}
    (hne : ds ≠ []) (hdig : ∀ d ∈ ds, d.isDigit = true)
    (hc : ∀ y, c.head? = some y → isWS y = false) :
    numPrefixLen (ds ++ '.' :: ' ' :: c) = ds.length + 2 := by
  have htake : ((ds ++ '.' :: ' ' :: c).takeWhile Char.isDigit) = ds :=
    takeWhile_all_stop ds '.' (' ' :: c) hdig (by decide)
  unfold numPrefixLen
  rw [htake]
  have h2 : ¬ds.isEmpty = true := by
    cases ds with
    | nil => exact absurd rfl hne
    | cons d t => simp
  rw [if_neg h2, List.drop_left]
  have htc : c.takeWhile isWS = [] := by
    cases hc' : c with
    | nil => rfl
    | cons y t =>
      have : isWS y = false := hc y (by rw [hc']; rfl)
      simp [List.takeWhile_cons, this]
  simp only [List.takeWhile_cons]
  norm_num [isWS, htc]

/-- The spec-side numeral-marker length on the same shape agrees. -/
lemma specPrefixLen_numeral {ds c : List Char}
    (hne : ds ≠ []) (hdig : ∀ d ∈ ds, d.isDigit = true) :
    specPrefixLen (ds ++ '.' :: ' ' :: c) = ds.length + 2 := by
  have htake : ((ds ++ '.' :: ' ' :: c).takeWhile Char.isDigit) = ds :=
    takeWhile_all_stop ds '.' (' ' :: c) hdig (by decide)
  unfold specPrefixLen
  rw [htake]
  have h2 : ¬ds.isEmpty = true := by
    cases ds with
    | nil => exact absurd rfl hne
    | cons d t => simp
  rw [if_neg h2, List.drop_left]
  rfl

/-- Trimming a numeral followed by a dot and a space drops only that space. -/
lemma trim_numeral_dot_space {ds : List Char} (hne : ds ≠ [])
    (hdig : ∀ d ∈ ds, d.isDigit = true) :
    trim (ds ++ ['.', ' ']) = ds ++ ['.'] := by
  have hR : trimRight (ds ++ ['.', ' ']) = ds ++ ['.'] := by
    unfold trimRight
    rw [List.reverse_append]
    show ((' ' :: '.' :: ds.reverse).dropWhile isWS).reverse = ds ++ ['.']
    have h1 : (' ' :: '.' :: ds.reverse).dropWhile isWS = '.' :: ds.reverse := by
      rw [List.dropWhile_cons]
      simp only [show isWS ' ' = true from rfl, if_true]
      rw [List.dropWhile_cons]
      simp only [show isWS '.' = false from rfl, Bool.false_eq_true, if_false]
    rw [h1]
    simp
  unfold trim trimLeft
  rw [hR]
  cases hds : ds with
  | nil => exact absurd hds hne
  | cons d t =>
    have hd : isWS d = false :=
      isWS_eq_false_of_isDigit (hdig d (by rw [hds]; exact List.mem_cons_self d t))
    rw [List.cons_append, List.dropWhile_cons, hd]
    simp

/-- One renumbered line begins with a digit. -/
lemma head?_formatLine (k : Nat) (x : List Char) :
    ∃ d, (formatLine k x).head? = some d ∧ d.isDigit = true := by
  obtain ⟨d, t, hds, hd⟩ := natChars_cons k
  refine ⟨d, ?_, hd⟩
  unfold formatLine
  rw [hds]
  rfl

/-- Renumbered lines are not blank. -/
lemma isBlankLine_formatLine (k : Nat) (x : List Char) :
    isBlankLine (formatLine k x) = false := by
  unfold isBlankLine
  cases h : trim (formatLine k x) with
  | nil =>
    exfalso
    obtain ⟨d, t, hds, hd⟩ := natChars_cons k
    have hdm : d ∈ formatLine k x := by
      unfold formatLine
      exact List.mem_append_left _ (hds ▸ List.mem_cons_self d t)
    have := all_ws_of_trim_eq_nil h d hdm
    rw [isWS_eq_false_of_isDigit hd] at this
    exact Bool.noConfusion this
  | cons y l => rfl

/-- Stripping after trimming a renumbered line recovers exactly the stripped
trimmed content of the original line: the regex removes precisely the injected
marker. -/
lemma strip_trim_formatLine (k : Nat) (x : List Char) :
    stripMarker (trim (formatLine k x)) = stripMarker (trim x) := by
  cases hcc : stripMarker (trim x) with
  | nil =>
    have hfl : formatLine k x = natChars k ++ ['.', ' '] := by
      unfold formatLine; rw [hcc]
    rw [hfl,
      trim_numeral_dot_space (natChars_ne_nil k) (fun d hd => natChars_isDigit hd),
      show (natChars k ++ ['.'] : List Char) = natChars k ++ '.' :: [] from rfl,
      stripMarker_numeral (natChars_ne_nil k) (fun d hd => natChars_isDigit hd)]
    rfl
  | cons y c' =>
    have hhead : ∀ z, (formatLine k x).head? = some z → isWS z = false := by
      intro z hz
      obtain ⟨d, hd, hdig⟩ := head?_formatLine k x
      rw [hd] at hz
      cases hz
      exact isWS_eq_false_of_isDigit hdig
    have hlast : ∀ z, (formatLine k x).getLast? = some z → isWS z = false := by
      intro z hz
      have h₁ : (formatLine k x).getLast? = (stripMarker (trim x)).getLast? := by
        unfold formatLine
        rw [List.getLast?_append]
        have h₂ : ('.' :: ' ' :: stripMarker (trim x)).getLast?
            = (stripMarker (trim x)).getLast? := by
          show ((['.', ' '] : List Char) ++ stripMarker (trim x)).getLast? = _
          rw [List.getLast?_append, hcc]
          cases hgl : (y :: c').getLast? with
          | none => exact absurd (List.getLast?_eq_none_iff.mp hgl) (List.cons_ne_nil y c')
          | some w => rfl
        rw [h₂, hcc]
        cases hgl : (y :: c').getLast? with
        | none => exact absurd (List.getLast?_eq_none_iff.mp hgl) (List.cons_ne_nil y c')
        | some w => rfl
      rw [h₁] at hz
      exact getLast?_stripMarker_trim hz
    rw [trim_eq_self hhead hlast]
    show stripMarker (natChars k ++ '.' :: ' ' :: stripMarker (trim x)) = y :: c'
    rw [hcc, stripMarker_numeral (natChars_ne_nil k) (fun d hd => natChars_isDigit hd)]
    have hy : isWS y = false := head?_stripMarker_trim (l := x) (by rw [hcc]; rfl)
    rw [List.dropWhile_cons]
    simp only [show isWS ' ' = true from rfl, if_true]
    rw [List.dropWhile_cons]
    simp only [hy, Bool.false_eq_true, if_false]

/-- Renumbering preserves the number of lines. -/
lemma numberFrom_length : ∀ (L : List (List Char)) (k : Nat),
    (numberFrom k L).length = L.length := by
  intro L
  induction L with
  | nil => intro k; rfl
  | cons l ls ih =>
    intro k
    simp only [numberFrom]
    by_cases h : isBlankLine l
    · simp [h, ih]
    · simp [h, ih]

/-- Renumbered lines contain no line break when the input lines contain none. -/
lemma no_newline_of_mem_numberFrom :
    ∀ (L : List (List Char)) (k : Nat), (∀ l ∈ L, '\n' ∉ l) →
      ∀ l' ∈ numberFrom k L, '\n' ∉ l' := by
  intro L
  induction L with
  | nil => intro k _ l' hl'; exact absurd hl' (List.not_mem_nil l')
  | cons l ls ih =>
    intro k hnl l' hl'
    simp only [numberFrom] at hl'
    by_cases h : isBlankLine l
    · rw [if_pos h] at hl'
      rcases List.mem_cons.mp hl' with h' | h'
      · subst h'; exact List.not_mem_nil _
      · exact ih k (fun x hx => hnl x (List.mem_cons_of_mem l hx)) l' h'
    · rw [if_neg h] at hl'
      rcases List.mem_cons.mp hl' with h' | h'
      · subst h'
        intro hmem
        unfold formatLine at hmem
        rcases List.mem_append.mp hmem with h'' | h''
        · exact ne_newline_of_isDigit (natChars_isDigit h'') rfl
        · rcases List.mem_cons.mp h'' with h₃ | h₃
          · exact absurd h₃ (by decide)
          · rcases List.mem_cons.mp h₃ with h₄ | h₄
            · exact absurd h₄ (by decide)
            · exact hnl l (List.mem_cons_self l ls)
                (mem_of_mem_trim (mem_of_mem_stripMarker h₄))
      · exact ih (k + 1) (fun x hx => hnl x (List.mem_cons_of_mem l hx)) l' h'

/-- Index-wise description of renumbering: the line at position i is empty when
the input line is blank, and otherwise carries the numeral of the count of
non-blank lines before it added to the starting counter. -/
lemma numberFrom_getD : ∀ (L : List (List Char)) (k i : Nat),
    (numberFrom k L).getD i [] =
      if isBlankLine (L.getD i []) then []
      else formatLine (k + (L.take i).countP (fun l => !(trim l).isEmpty)) (L.getD i []) := by
  intro L
  induction L with
  | nil =>
    intro k i
    show ([] : List (List Char)).getD i [] = _
    simp [numberFrom, isBlankLine, trim, trimLeft, trimRight]
  | cons l ls ih =>
    intro k i
    cases i with
    | zero =>
      simp only [numberFrom, List.take_zero, List.countP_nil, Nat.add_zero, List.getD_cons_zero]
      by_cases h : isBlankLine l
      · simp [h]
      · simp [h]
    | succ i =>
      simp only [numberFrom, List.getD_cons_succ, List.take_succ_cons, List.countP_cons]
      by_cases h : isBlankLine l
      · have hpred : (!(trim l).isEmpty) = false := by
          unfold isBlankLine at h
          rw [h]; rfl
        simp only [if_pos h, List.getD_cons_succ, hpred, if_false, Nat.add_zero]
        exact ih k i
      · have hpred : (!(trim l).isEmpty) = true := by
          unfold isBlankLine at h
          rw [Bool.not_eq_true] at h
          rw [h]; rfl
        simp only [if_neg h, List.getD_cons_succ, hpred, if_true]
        rw [ih (k + 1) i]
        have harith : k + 1 + (ls.take i).countP (fun l => !(trim l).isEmpty)
            = k + ((ls.take i).countP (fun l => !(trim l).isEmpty) + 1) := by omega
        rw [harith]

/-- Renumbering is idempotent on lists of lines. -/
lemma numberFrom_idem : ∀ (L : List (List Char)) (k : Nat),
    numberFrom k (numberFrom k L) = numberFrom k L := by
  intro L
  induction L with
  | nil => intro k; rfl
  | cons l ls ih =>
    intro k
    simp only [numberFrom]
    by_cases h : isBlankLine l
    · rw [if_pos h]
      simp only [numberFrom, show isBlankLine [] = true from rfl, if_true, ih k]
    · rw [if_neg h]
      have hfix : formatLine k (formatLine k l) = formatLine k l := by
        show natChars k ++ '.' :: ' ' :: stripMarker (trim (formatLine k l)) = formatLine k l
        rw [strip_trim_formatLine]
        rfl
      simp only [numberFrom, isBlankLine_formatLine k l, Bool.false_eq_true, if_false,
        ih (k + 1), hfix]

/-- The lines of the reformatted text are exactly the renumbered lines of the
input text. -/
lemma splitLines_reformat (t : List Char) :
    splitLines (reformatChars t) = numberFrom 1 (splitLines t) := by
  by_cases ht : t.isEmpty
  · have ht' : t = [] := by cases t with | nil => rfl | cons c cs => exact Bool.noConfusion ht
    subst ht'
    show splitLines [] = numberFrom 1 [[]]
    simp only [numberFrom, show isBlankLine [] = true from rfl, if_true]
    rfl
  · unfold reformatChars
    rw [if_neg ht]
    apply splitLines_joinLines
    · intro h0
      have := numberFrom_length (splitLines t) 1
      rw [h0] at this
      exact splitLines_ne_nil t (List.length_eq_zero.mp this.symm)
    · exact no_newline_of_mem_numberFrom (splitLines t) 1
        (fun l hl => no_newline_of_mem_splitLines t l hl)

/-- C1: for every input text, each blank line of the output is empty, and each
non-blank line carries the fresh sequential ordinal — one plus the count of
non-blank lines before it, counted from one — followed by a dot, a space, and
the trimmed line with its pre-existing ordinal or bullet marker stripped; in
particular the input built of a star item, a blank line and two more lines is
renumbered one, blank, two, three. -/
theorem reformat_numbering_characterization :
    (∀ (t : List Char) (i : Nat),
      (splitLines (reformatChars t)).getD i [] =
        if (trim ((splitLines t).getD i [])).isEmpty then ([] : List Char)
        else natChars (nonBlankBefore (splitLines t) i + 1) ++
          '.' :: ' ' :: stripMarker (trim ((splitLines t).getD i []))) ∧
    reformatTextToNumberedList "* a\n\nb\n3. c" = "1. a\n\n2. b\n3. c" := by
  constructor
  · intro t i
    rw [splitLines_reformat, numberFrom_getD]
    by_cases h : isBlankLine ((splitLines t).getD i [])
    · have h' : (trim ((splitLines t).getD i [])).isEmpty = true := h
      rw [if_pos h, if_pos h']
    · have h' : ¬(trim ((splitLines t).getD i [])).isEmpty = true := h
      rw [if_neg h, if_neg h']
      unfold formatLine nonBlankBefore
      rw [Nat.add_comm 1 (((splitLines t).take i).countP fun l => !(trim l).isEmpty)]
  · decide

/-- C2: the reformatter is idempotent, both on character lists and on strings. -/
theorem reformat_idempotent :
    (∀ t : List Char, reformatChars (reformatChars t) = reformatChars t) ∧
    (∀ s : String,
      reformatTextToNumberedList (reformatTextToNumberedList s) = reformatTextToNumberedList s) := by
  have hlist : ∀ t : List Char, reformatChars (reformatChars t) = reformatChars t := by
    intro t
    by_cases h0 : (reformatChars t).isEmpty
    · have h0' : reformatChars t = [] := by
        cases h : reformatChars t with
        | nil => rfl
        | cons c cs => rw [h] at h0; exact Bool.noConfusion h0
      rw [h0']
      rfl
    · have ht : ¬t.isEmpty = true := by
        intro h
        have h' : reformatChars t = [] := by unfold reformatChars; rw [if_pos h]
        rw [h'] at h0
        exact h0 rfl
      have hsplit := splitLines_reformat t
      obtain ⟨u, hu₀⟩ : ∃ u, reformatChars t = u := ⟨_, rfl⟩
      have hu : joinLines (numberFrom 1 (splitLines t)) = u := by
        rw [← hu₀]
        unfold reformatChars
        rw [if_neg ht]
      rw [hu₀] at h0 hsplit ⊢
      show reformatChars u = u
      unfold reformatChars
      rw [if_neg h0, hsplit, numberFrom_idem, hu]
  refine ⟨hlist, ?_⟩
  intro s
  show (⟨reformatChars (String.data ⟨reformatChars s.data⟩)⟩ : String) = ⟨reformatChars s.data⟩
  rw [show (String.data ⟨reformatChars s.data⟩) = reformatChars s.data from rfl, hlist s.data]

/-- C3 counterexample: a line holding a single space is blank, yet the
reformatter replaces it by the empty line, so blank lines are not preserved
with their exact character content. -/
theorem blank_line_not_verbatim_cex :
    (splitLines [' ']).getD 0 [] = [' '] ∧
    (splitLines (reformatChars [' '])).getD 0 [] = [] ∧
    (splitLines (reformatChars [' '])).getD 0 [] ≠ (splitLines [' ']).getD 0 [] := by
  decide

/-- C3 amended: the reformatter preserves the number of lines, keeps a line
blank exactly when the input line was blank — so blank positions and count are
unchanged — and maps every blank input line to the empty line with no numeral
marker, though not always to its verbatim character content. -/
theorem reformat_blank_lines_amended :
    ∀ (t : List Char) (i : Nat),
      (splitLines (reformatChars t)).length = (splitLines t).length ∧
      isBlankLine ((splitLines (reformatChars t)).getD i []) =
        isBlankLine ((splitLines t).getD i []) ∧
      (isBlankLine ((splitLines t).getD i []) = true →
        (splitLines (reformatChars t)).getD i [] = []) := by
  intro t i
  refine ⟨by rw [splitLines_reformat, numberFrom_length], ?_, ?_⟩
  · rw [splitLines_reformat, numberFrom_getD]
    by_cases h : isBlankLine ((splitLines t).getD i [])
    · rw [if_pos h, h]
      decide
    · rw [if_neg h, isBlankLine_formatLine]
      rw [Bool.not_eq_true] at h
      rw [h]
  · intro h
    rw [splitLines_reformat, numberFrom_getD, if_pos h]

/-- C3 witness: on the text of a space line followed by an x line, the first
output line is blank like the input line and is the empty line. -/
theorem reformat_blank_lines_amended_witness :
    isBlankLine ((splitLines (reformatChars (' ' :: '\n' :: ['x']))).getD 0 []) =
      isBlankLine ((splitLines (' ' :: '\n' :: ['x'])).getD 0 []) ∧
    (splitLines (reformatChars (' ' :: '\n' :: ['x']))).getD 0 [] = [] :=
  ⟨(reformat_blank_lines_amended (' ' :: '\n' :: ['x']) 0).2.1,
   (reformat_blank_lines_amended (' ' :: '\n' :: ['x']) 0).2.2 (by decide)⟩

/-- C10: the reformatter preserves the number of lines, and maps the empty
input to the empty output. -/
theorem reformat_preserves_line_count :
    (∀ t : List Char, (splitLines (reformatChars t)).length = (splitLines t).length) ∧
    reformatChars [] = [] := by
  refine ⟨?_, rfl⟩
  intro t
  rw [splitLines_reformat, numberFrom_length]

/-- C4 counterexample: with the two-item buffer and the cursor directly after
the first item's text, the committed buffer is not the specification's
three-line numbered buffer, and the pending cursor is not the offset directly
after a second ordinal marker. -/
theorem enter_example_cex :
    (handleKeyDownEnter "1. a\n2. b".data 4).1 ≠ "1. a\n2. \n3. b".data ∧
    (handleKeyDownEnter "1. a\n2. b".data 4).2 ≠ 8 := by
  decide

/-- C4 amended: with the two-item buffer and the cursor directly after the
first item's text, pressing line-break commits the buffer whose second line is
blank and unnumbered, and places the pending cursor at offset five, the start
of that blank line. -/
theorem enter_blank_second_line :
    handleKeyDownEnter "1. a\n2. b".data 4 = ("1. a\n\n2. b".data, 5) := by
  decide

/-- On the lines of any reformatted text the code's anchored marker length and
the spec-side ordinal-marker length agree. -/
lemma prefixLens_agree (x : List Char) (i : Nat) :
    numPrefixLen ((splitLines (reformatChars x)).getD i []) =
      specPrefixLen ((splitLines (reformatChars x)).getD i []) := by
  rw [splitLines_reformat, numberFrom_getD]
  by_cases h : isBlankLine ((splitLines x).getD i [])
  · rw [if_pos h]
    decide
  · rw [if_neg h]
    show numPrefixLen (natChars _ ++ '.' :: ' ' ::
        stripMarker (trim ((splitLines x).getD i []))) =
      specPrefixLen (natChars _ ++ '.' :: ' ' ::
        stripMarker (trim ((splitLines x).getD i [])))
    rw [numPrefixLen_numeral (natChars_ne_nil _) (fun d hd => natChars_isDigit hd)
        (fun y hy => head?_stripMarker_trim hy),
      specPrefixLen_numeral (natChars_ne_nil _) (fun d hd => natChars_isDigit hd)]

/-- The committed buffer of the line-break handler is the reformatted text with
the line break inserted at the cursor. -/
lemma handleKeyDownEnter_fst (v : List Char) (p : Nat) :
    (handleKeyDownEnter v p).1 = reformatChars (v.take p ++ '\n' :: v.drop p) := by
  simp only [handleKeyDownEnter]
  split <;> rfl

/-- C5: the pending cursor of the line-break handler always equals the
spec-side computation — the sum over the lines strictly before the target line
of their lengths plus one per boundary, plus the target line's marker length
when present, with the end-of-buffer fallback; and on a nine-item list with
the cursor inside item nine it lands directly after the two-digit marker of the
new tenth item. -/
theorem enter_cursor_spec :
    (∀ (v : List Char) (p : Nat),
      (handleKeyDownEnter v p).2 =
        specCursorOffset (handleKeyDownEnter v p).1
          ((splitLines (v.take p)).length - 1 + 1)) ∧
    handleKeyDownEnter "1. a\n2. b\n3. c\n4. d\n5. e\n6. f\n7. g\n8. h\n9. ix".data 44 =
      ("1. a\n2. b\n3. c\n4. d\n5. e\n6. f\n7. g\n8. h\n9. i\n10. x".data, 49) := by
  constructor
  · intro v p
    rw [handleKeyDownEnter_fst]
    simp only [handleKeyDownEnter, specCursorOffset]
    by_cases hc : (splitLines (v.take p)).length - 1 + 1 <
        (splitLines (reformatChars (v.take p ++ '\n' :: v.drop p))).length
    · rw [if_pos hc, if_pos hc]
      exact congrArg _ (prefixLens_agree _ _)
    · rw [if_neg hc, if_neg hc]
  · decide

/-- A blur in the correcting-eligible case raises the flag and records one more
outstanding correction call, leaving the value untouched until resolution. -/
lemma blurStep_eligible (s : EditorState)
    (h : (trim (reformatChars s.value)).isEmpty = false) :
    step true false BlurEvent.blur s
      = ⟨s.value, s.pending ++ [(s.value, reformatChars s.value)], true⟩ := by
  cases s with
  | mk v P b =>
    simp only [step, blurStep] at h ⊢
    rw [h]
    rfl

/-- A blur outside the correcting-eligible case only commits the reformatted
text, without touching the flag or the outstanding calls. -/
lemma blurStep_plain (cap ro : Bool) (s : EditorState)
    (h : (cap && !ro && !(trim (reformatChars s.value)).isEmpty) = false) :
    step cap ro BlurEvent.blur s = ⟨reformatChars s.value, s.pending, s.isCorrecting⟩ := by
  cases s with
  | mk v P b =>
    simp only [step, blurStep] at h ⊢
    rw [h, if_neg (by decide : ¬(false = true))]
    by_cases hv : v = reformatChars v
    · rw [if_neg (fun hne => hne hv)]
      show (⟨v, P, b⟩ : EditorState) = ⟨reformatChars v, P, b⟩
      rw [← hv]
    · rw [if_pos hv]

/-- Committing a differing value always lands on that value. -/
lemma ite_commit (v w : List Char) : (if v ≠ w then w else v) = w := by
  by_cases hv : v = w
  · rw [if_neg (fun hne => hne hv)]
    exact hv
  · rw [if_pos hv]

/-- Resolving a successful correction pops the oldest call, commits the
returned text when it differs from the captured value, and lowers the flag. -/
lemma resolveOk_pops (w c v f : List Char) (P : List (List Char × List Char)) (b : Bool) :
    step true false (BlurEvent.resolveOk c) ⟨w, (v, f) :: P, b⟩
      = ⟨if v ≠ c then c else w, P, false⟩ := rfl

/-- Resolving a failed correction pops the oldest call, commits the captured
reformatted text when it differs from the captured value, and lowers the flag. -/
lemma resolveErr_pops (w v f : List Char) (P : List (List Char × List Char)) (b : Bool) :
    step true false BlurEvent.resolveErr ⟨w, (v, f) :: P, b⟩
      = ⟨if v ≠ f then f else w, P, false⟩ := rfl

/-- Resolution with no outstanding call is a no-op. -/
lemma resolve_noop (e : BlurEvent) (w : List Char) (b : Bool) (he : e ≠ BlurEvent.blur) :
    step true false e ⟨w, [], b⟩ = ⟨w, [], b⟩ := by
  cases e with
  | blur => exact absurd rfl he
  | resolveOk t => rfl
  | resolveErr => rfl

/-- C6: when the correction capability is present on an editable field with
non-blank reformatted text and the correction call fails, the final value is
the locally reformatted text and the correcting flag is lowered; the flag is
also lowered on the success path. -/
theorem blur_failure_fallback :
    ∀ v : List Char, (trim (reformatChars v)).isEmpty = false →
      (runEvents true false [BlurEvent.blur, BlurEvent.resolveErr] (initState v)).value
          = reformatChars v ∧
      (runEvents true false [BlurEvent.blur, BlurEvent.resolveErr] (initState v)).isCorrecting
          = false ∧
      ∀ c : List Char,
        (runEvents true false [BlurEvent.blur, BlurEvent.resolveOk c] (initState v)).isCorrecting
          = false := by
  intro v h
  have hrun : ∀ e : BlurEvent,
      runEvents true false [BlurEvent.blur, e] (initState v)
        = step true false e (step true false BlurEvent.blur (initState v)) := fun _ => rfl
  have hblur : step true false BlurEvent.blur (initState v)
      = ⟨v, [(v, reformatChars v)], true⟩ := blurStep_eligible (initState v) h
  refine ⟨?_, ?_, ?_⟩
  · rw [hrun, hblur, resolveErr_pops]
    exact ite_commit v (reformatChars v)
  · rw [hrun, hblur, resolveErr_pops]
  · intro c
    rw [hrun, hblur, resolveOk_pops]

/-- C6 witness: on the one-character buffer with a failing correction, the
value becomes the reformatted text and the flag settles to false on both
paths. -/
theorem blur_failure_fallback_witness :
    (runEvents true false [BlurEvent.blur, BlurEvent.resolveErr] (initState ['a'])).value
        = reformatChars ['a'] ∧
    (runEvents true false [BlurEvent.blur, BlurEvent.resolveErr] (initState ['a'])).isCorrecting
        = false ∧
    (runEvents true false [BlurEvent.blur, BlurEvent.resolveOk ['b']] (initState ['a'])).isCorrecting
        = false :=
  ⟨(blur_failure_fallback ['a'] (by decide)).1,
   (blur_failure_fallback ['a'] (by decide)).2.1,
   (blur_failure_fallback ['a'] (by decide)).2.2 ['b']⟩

/-- C7: when the correction capability is present on an editable field with
non-blank reformatted text and the correction succeeds with text differing
from the buffer captured at blur time, the returned text is committed as the
new value, and the correcting flag is lowered. -/
theorem blur_success_commit :
    ∀ v c : List Char, (trim (reformatChars v)).isEmpty = false → v ≠ c →
      (runEvents true false [BlurEvent.blur, BlurEvent.resolveOk c] (initState v)).value = c ∧
      (runEvents true false [BlurEvent.blur, BlurEvent.resolveOk c] (initState v)).isCorrecting
        = false := by
  intro v c h hne
  have hrun : runEvents true false [BlurEvent.blur, BlurEvent.resolveOk c] (initState v)
      = step true false (BlurEvent.resolveOk c) (step true false BlurEvent.blur (initState v)) :=
    rfl
  have hblur : step true false BlurEvent.blur (initState v)
      = ⟨v, [(v, reformatChars v)], true⟩ := blurStep_eligible (initState v) h
  rw [hrun, hblur, resolveOk_pops]
  exact ⟨by rw [if_pos hne], rfl⟩

/-- C7 witness: a succeeding correction returning different text on the
one-character buffer is committed and the flag settles to false. -/
theorem blur_success_commit_witness :
    (runEvents true false [BlurEvent.blur, BlurEvent.resolveOk ['b']] (initState ['a'])).value
        = ['b'] ∧
    (runEvents true false [BlurEvent.blur, BlurEvent.resolveOk ['b']] (initState ['a'])).isCorrecting
        = false :=
  ⟨(blur_success_commit ['a'] ['b'] (by decide) (by decide)).1,
   (blur_success_commit ['a'] ['b'] (by decide) (by decide)).2⟩

/-- C8: blur always reformats locally first, so the handler degrades safely:
with no capability a single blur commits the reformatted text with no
suspension and no outstanding call; with a capability, a failing correction
ends on the reformatted text, and a succeeding one ends on the correction
result or the reformatted text — never the raw unformatted blur-time buffer. -/
theorem blur_degrades_to_reformat :
    (∀ (v : List Char) (ro : Bool),
      (runEvents false ro [BlurEvent.blur] (initState v)).value = reformatChars v ∧
      (runEvents false ro [BlurEvent.blur] (initState v)).isCorrecting = false ∧
      (runEvents false ro [BlurEvent.blur] (initState v)).pending = []) ∧
    (∀ v : List Char,
      (runEvents true false [BlurEvent.blur, BlurEvent.resolveErr] (initState v)).value
        = reformatChars v) ∧
    (∀ v c : List Char,
      (runEvents true false [BlurEvent.blur, BlurEvent.resolveOk c] (initState v)).value = c ∨
      (runEvents true false [BlurEvent.blur, BlurEvent.resolveOk c] (initState v)).value
        = reformatChars v) := by
  refine ⟨?_, ?_, ?_⟩
  · intro v ro
    have hrun : runEvents false ro [BlurEvent.blur] (initState v)
        = step false ro BlurEvent.blur (initState v) := rfl
    have hplain : step false ro BlurEvent.blur (initState v)
        = ⟨reformatChars v, [], false⟩ := blurStep_plain false ro (initState v) rfl
    rw [hrun, hplain]
    exact ⟨rfl, rfl, rfl⟩
  · intro v
    have hrun : runEvents true false [BlurEvent.blur, BlurEvent.resolveErr] (initState v)
        = step true false BlurEvent.resolveErr (step true false BlurEvent.blur (initState v)) :=
      rfl
    rw [hrun]
    by_cases h : (trim (reformatChars v)).isEmpty = false
    · have hblur : step true false BlurEvent.blur (initState v)
          = ⟨v, [(v, reformatChars v)], true⟩ := blurStep_eligible (initState v) h
      rw [hblur, resolveErr_pops]
      exact ite_commit v (reformatChars v)
    · have h' : (true && !false && !(trim (reformatChars v)).isEmpty) = false := by
        rw [Bool.not_eq_false] at h
        rw [h]
        rfl
      have hplain : step true false BlurEvent.blur (initState v)
          = ⟨reformatChars v, [], false⟩ := blurStep_plain true false (initState v) h'
      rw [hplain,
        resolve_noop BlurEvent.resolveErr (reformatChars v) false (by intro hx; cases hx)]
  · intro v c
    have hrun : runEvents true false [BlurEvent.blur, BlurEvent.resolveOk c] (initState v)
        = step true false (BlurEvent.resolveOk c) (step true false BlurEvent.blur (initState v)) :=
      rfl
    rw [hrun]
    by_cases h : (trim (reformatChars v)).isEmpty = false
    · have hblur : step true false BlurEvent.blur (initState v)
          = ⟨v, [(v, reformatChars v)], true⟩ := blurStep_eligible (initState v) h
      rw [hblur, resolveOk_pops]
      left
      exact ite_commit v c
    · right
      have h' : (true && !false && !(trim (reformatChars v)).isEmpty) = false := by
        rw [Bool.not_eq_false] at h
        rw [h]
        rfl
      have hplain : step true false BlurEvent.blur (initState v)
          = ⟨reformatChars v, [], false⟩ := blurStep_plain true false (initState v) h'
      rw [hplain,
        resolve_noop (BlurEvent.resolveOk c) (reformatChars v) false (by intro hx; cases hx)]

/-- C9 counterexample: two blurs with no resolution in between leave two
outstanding correction calls, so at this point more than one correction is
outstanding for the field. -/
theorem correction_overlap_cex :
    (runEvents true false [BlurEvent.blur, BlurEvent.blur] (initState ['a'])).pending.length
        = 2 ∧
    ¬((runEvents true false [BlurEvent.blur, BlurEvent.blur] (initState ['a'])).pending.length
        ≤ 1) := by
  decide

/-- C9 amended: the correcting flag is raised at call start but is not
consulted before starting a new correction — a blur in the eligible case
starts one more outstanding correction regardless of the current flag, so
overlapping corrections are possible. -/
theorem blur_starts_correction_unguarded :
    ∀ s : EditorState, (trim (reformatChars s.value)).isEmpty = false →
      (step true false BlurEvent.blur s).pending.length = s.pending.length + 1 ∧
      (step true false BlurEvent.blur s).isCorrecting = true := by
  intro s h
  rw [blurStep_eligible s h]
  constructor
  · simp
  · rfl

/-- C9 witness: blurring while a correction is already outstanding and the
flag is raised starts a second outstanding correction. -/
theorem blur_starts_correction_unguarded_witness :
    (step true false BlurEvent.blur
        ⟨['a'], [(['a'], reformatChars ['a'])], true⟩).pending.length = 2 ∧
    (step true false BlurEvent.blur
        ⟨['a'], [(['a'], reformatChars ['a'])], true⟩).isCorrecting = true :=
  ⟨(blur_starts_correction_unguarded
      ⟨['a'], [(['a'], reformatChars ['a'])], true⟩ (by decide)).1,
   (blur_starts_correction_unguarded
      ⟨['a'], [(['a'], reformatChars ['a'])], true⟩ (by decide)).2⟩

end RNL
